import Mathlib

/-!
Shallow embedding of `src/main.py` (fractal-dashboard), a Streamlit app that
tracks balances of a user-managed list of blockchain addresses.

Modelling conventions:
* Python strings are `String`, Python numbers are `ℤ`/`ℚ` (Python `/` is true
  division, modelled exactly on `ℚ`).
* The HTTP layer (`requests.get` plus `raise_for_status` plus `.json()`) is an
  oracle value of type `HttpResult` per address: either a transport error
  (caught as `requests.RequestException`) or a decoded response with a status
  code and a decoded JSON body restricted to the shape the program inspects
  (`data` key, holding a `balance` key with an integer subunit count).
* Python `dict` (`st.session_state.balance_history`) is an association list
  `HistMap`; `dict[k]` raising `KeyError` and `list.remove` raising
  `ValueError` are modelled with `Except String`.
* The persisted file `addresses.json` is `FileState`: `none` when the file
  does not exist (`FileNotFoundError`), `some none` when it exists but its
  bytes are not valid JSON (`json.load` raises `JSONDecodeError`, which the
  source does not catch), and `some (some v)` when it decodes to the JSON
  value `v`.
-/

namespace FractalDashboard

/-- One sample: (timestamp, balance); the tuple appended at
`st.session_state.balance_history[address].append((current_time, balance))`. -/
abbrev Sample := ℕ × ℚ

/-- The per-address history sequence. -/
abbrev Samples := List Sample

/-- Python dict `st.session_state.balance_history`: a map from address to its
sample list, modelled as an association list in insertion order. -/
abbrev HistMap := List (String × Samples)

/-- The dict `{'address': address, 'balance': balance}` returned by a
successful `fetch_account_data`. -/
structure AccountData where
  address : String
  balance : ℚ
deriving DecidableEq, Repr

/-- Decoded JSON body of the summary endpoint, restricted to the fields the
program inspects: `dataField = none` means no `data` key; `some none` means a
`data` object without a `balance` key; `some (some n)` means
`data.balance = n` (integer subunits). -/
structure ApiBody where
  dataField : Option (Option ℤ)
deriving DecidableEq, Repr

/-- Outcome of `requests.get` for one address: a transport error (raised and
caught as `requests.RequestException`), or a response with an HTTP status code
and decoded body. -/
inductive HttpResult where
  | netError : HttpResult
  | resp (status : ℕ) (body : ApiBody) : HttpResult
deriving DecidableEq, Repr

/-- Model of `fetch_account_data(address)` (src/main.py lines 32-57), with the network
outcome `r` passed explicitly. `response.raise_for_status()` raises (caught by
the surrounding `except requests.RequestException`) exactly when the status is
4xx/5xx, that is when `400 <= status < 600`; any other status, including 600
and above, passes through. Missing `data` or `balance` fields return `None`;
otherwise the balance is `data['data']['balance'] / 100000000` (Python true
division). -/
def fetch_account_data (address : String) (r : HttpResult) : Option AccountData :=
  match r with
  | .netError => none
  | .resp status body =>
    if 400 ≤ status ∧ status < 600 then
      none
    else
      match body.dataField with
      | none => none
      | some none => none
      | some (some sub) => some ⟨address, (sub : ℚ) / 100000000⟩

/-- Model of `update_accounts_data(accounts)` (src/main.py lines 60-68): fetch each
account in order, keep the truthy (successful) results. `f` gives the network
outcome for each address during this cycle. -/
def update_accounts_data (f : String → HttpResult) (accounts : List String) :
    List AccountData :=
  accounts.filterMap (fun a => fetch_account_data a (f a))

/-- Session state: `st.session_state.accounts` and
`st.session_state.balance_history`. -/
structure AppState where
  accounts : List String
  balance_history : HistMap
deriving DecidableEq, Repr

/-- Outcome of the add-account handler: `st.success`, the duplicate
`st.warning`, or the invalid-input `st.warning`. -/
inductive AddResult where
  | added : AddResult
  | duplicateWarning : AddResult
  | invalidWarning : AddResult
deriving DecidableEq, Repr

/-- Python dict assignment `d[k] = v`: overwrite if the key is present,
otherwise append (dicts preserve insertion order). -/
def dictInsert (hist : HistMap) (k : String) (v : Samples) : HistMap :=
  if (hist.lookup k).isSome then
    hist.map (fun p => if p.1 = k then (k, v) else p)
  else
    hist ++ [(k, v)]

/-- The add-account handler (src/main.py lines 86-96):
`if new_account and new_account not in accounts` appends and creates an empty
history entry; `elif new_account in accounts` warns about the duplicate;
otherwise warns about invalid input. A Python string is truthy iff it is
non-empty. -/
def add_account (new_account : String) (s : AppState) : AppState × AddResult :=
  if new_account ≠ "" ∧ new_account ∉ s.accounts then
    (⟨s.accounts ++ [new_account], dictInsert s.balance_history new_account []⟩,
      .added)
  else if new_account ∈ s.accounts then
    (s, .duplicateWarning)
  else
    (s, .invalidWarning)

/-- Python `list.remove(x)`: remove the first occurrence of `x`, raising
`ValueError` when `x` is absent. -/
def listRemoveFirst (l : List String) (x : String) : Except String (List String) :=
  match l with
  | [] => .error "ValueError"
  | a :: rest =>
    if a = x then .ok rest
    else (listRemoveFirst rest x).map (fun r => a :: r)

/-- Python `del d[k]`: remove the entry for `k`, raising `KeyError` when `k`
is absent. -/
def dictDelete (hist : HistMap) (k : String) : Except String HistMap :=
  match hist with
  | [] => .error "KeyError"
  | (a, v) :: rest =>
    if a = k then .ok rest
    else (dictDelete rest k).map (fun r => (a, v) :: r)

/-- The delete-account handler (src/main.py lines 103-108):
`accounts.remove(account)` then `del balance_history[account]`. -/
def remove_account (account : String) (s : AppState) : Except String AppState :=
  match listRemoveFirst s.accounts account with
  | .error e => .error e
  | .ok accs => (dictDelete s.balance_history account).map (fun h => ⟨accs, h⟩)

/-- Model of `st.session_state.balance_history[address].append((t, b))`
(src/main.py line 127 and line 178): append to the existing entry, raising
`KeyError` when the dict has no entry for the address. -/
def appendSample (hist : HistMap) (addr : String) (t : ℕ) (b : ℚ) :
    Except String HistMap :=
  match hist with
  | [] => .error "KeyError"
  | (a, samples) :: rest =>
    if a = addr then .ok ((a, samples ++ [(t, b)]) :: rest)
    else (appendSample rest addr t b).map (fun r => (a, samples) :: r)

/-- The recording loop `for data in account_data: ... append((current_time,
balance))` (src/main.py lines 175-178), run left to right with the single
cycle timestamp `t`. -/
def recordAll (hist : HistMap) (t : ℕ) (ds : List AccountData) :
    Except String HistMap :=
  match ds with
  | [] => .ok hist
  | d :: rest =>
    match appendSample hist d.address t d.balance with
    | .ok h => recordAll h t rest
    | .error e => .error e

/-- One refresh cycle of the `while True` loop (src/main.py lines 171-207):
fetch all accounts, and when the result list is truthy append every success
to its address's history with one timestamp `current_time = datetime.now()`
taken once; in either case `refresh_counter` is reset to `0` (line 207). -/
def refresh_cycle (f : String → HttpResult) (t : ℕ) (s : AppState) :
    Except String (AppState × ℕ) :=
  let account_data := update_accounts_data f s.accounts
  if account_data.isEmpty then
    .ok (s, 0)
  else
    match recordAll s.balance_history t account_data with
    | .ok h => .ok (⟨s.accounts, h⟩, 0)
    | .error e => .error e

/-- Minimal JSON values: enough for `addresses.json`, which the program
writes as an array of strings, and for the unvalidated values `json.load`
may hand back. -/
inductive JsonVal where
  | str (s : String) : JsonVal
  | num (n : ℤ) : JsonVal
  | arr (vs : List JsonVal) : JsonVal

/-- State of the persisted file `addresses.json`: `none` = the file does not
exist; `some none` = the file exists but its bytes are not valid JSON;
`some (some v)` = the file decodes to the JSON value `v`. -/
abbrev FileState := Option (Option JsonVal)

/-- Model of `load_addresses()` (src/main.py lines 19-24): `json.load` the file,
returning `[]` only on `FileNotFoundError`; a malformed file raises
`JSONDecodeError` (not caught); a well-formed file returns whatever JSON
value it holds, unvalidated. -/
def load_addresses (fs : FileState) : Except String JsonVal :=
  match fs with
  | none => .ok (.arr [])
  | some none => .error "JSONDecodeError"
  | some (some v) => .ok v

/-- Model of `save_addresses(addresses)` (src/main.py lines 27-29): overwrite the file
with the JSON array of the address strings, in order. -/
def save_addresses (addresses : List String) : FileState :=
  some (some (.arr (addresses.map .str)))

/-- Reads a JSON array of strings back as an address list; the program uses
the loaded value directly as `st.session_state.accounts`, so this is the
meaning function identifying a well-formed persisted value with a
`TrackedSet`. -/
def decodeStrings : List JsonVal → Option (List String)
  | [] => some []
  | .str s :: rest => (decodeStrings rest).map (fun l => s :: l)
  | .num _ :: _ => none
  | .arr _ :: _ => none

/-- Top-level decoder: a JSON value is a `TrackedSet` iff it is an array of
strings. -/
def decodeStringArray : JsonVal → Option (List String)
  | .arr vs => decodeStrings vs
  | .str _ => none
  | .num _ => none

/-- Left-pad a digit string with zeros to width `k`. -/
def padZeros (k : ℕ) (s : String) : String :=
  if s.length < k then String.mk (List.replicate (k - s.length) '0') ++ s
  else s

/-- The `'{:.8f}'.format` display of a balance (src/main.py line 133),
modelled exactly for the program's balances (which have at most 8 decimal
places, so rounding never occurs): integer part, a dot, and exactly eight
fractional digits. -/
def formatFixed8 (q : ℚ) : String :=
  let n : ℤ := ⌊q * 100000000⌋
  toString (n / 100000000) ++ "." ++ padZeros 8 (toString (n % 100000000))


/-!
Helper lemmas: lookup behaviour of the association-list history, the shape of
fetch results, and the combined effect of one refresh cycle on every key.
-/

theorem lookup_cons_self {a : String} {v : Samples} {rest : HistMap} :
    ((a, v) :: rest).lookup a = some v := by
  simp [List.lookup]

theorem lookup_cons_ne {a c : String} {v : Samples} {rest : HistMap} (h : c ≠ a) :
    ((a, v) :: rest).lookup c = rest.lookup c := by
  simp [List.lookup, beq_eq_false_iff_ne.mpr h]

theorem fetch_address_eq {a : String} {r : HttpResult} {d : AccountData}
    (h : fetch_account_data a r = some d) : d.address = a := by
  match r with
  | .netError => simp [fetch_account_data] at h
  | .resp status body =>
    match hb : body.dataField with
    | none => simp [fetch_account_data, hb] at h
    | some none => simp [fetch_account_data, hb] at h
    | some (some sub) =>
      simp only [fetch_account_data, hb] at h
      split at h
      · cases h
      · obtain rfl := (Option.some.inj h).symm
        rfl

theorem appendSample_lookup_some {hist : HistMap} {addr : String} {old : Samples}
    (t : ℕ) (b : ℚ) (h : hist.lookup addr = some old) :
    ∃ h', appendSample hist addr t b = .ok h' ∧
      h'.lookup addr = some (old ++ [(t, b)]) ∧
      ∀ c, c ≠ addr → h'.lookup c = hist.lookup c := by
  induction hist with
  | nil => simp [List.lookup] at h
  | cons p rest ih =>
    obtain ⟨a, samples⟩ := p
    by_cases hak : a = addr
    · subst hak
      have hso : samples = old := by
        rw [lookup_cons_self] at h
        exact Option.some.inj h
      refine ⟨(a, old ++ [(t, b)]) :: rest, ?_, lookup_cons_self, fun c hc => ?_⟩
      · simp [appendSample, hso]
      · rw [lookup_cons_ne hc, lookup_cons_ne hc]
    · rw [lookup_cons_ne (fun he => hak he.symm)] at h
      obtain ⟨h', he, hl, hfr⟩ := ih h
      refine ⟨(a, samples) :: h', ?_, ?_, fun c hc => ?_⟩
      · simp [appendSample, if_neg hak, he, Except.map]
      · rw [lookup_cons_ne (fun he2 => hak he2.symm)]
        exact hl
      · by_cases hca : c = a
        · subst hca
          rw [lookup_cons_self, lookup_cons_self]
        · rw [lookup_cons_ne hca, lookup_cons_ne hca]
          exact hfr c hc

theorem appendSample_lookup_none {hist : HistMap} {addr : String}
    (t : ℕ) (b : ℚ) (h : hist.lookup addr = none) :
    appendSample hist addr t b = .error "KeyError" := by
  induction hist with
  | nil => rfl
  | cons p rest ih =>
    obtain ⟨a, samples⟩ := p
    by_cases hak : a = addr
    · subst hak
      rw [lookup_cons_self] at h
      cases h
    · rw [lookup_cons_ne (fun he => hak he.symm)] at h
      simp [appendSample, if_neg hak, ih h, Except.map]


theorem recordAll_lookup {ds : List AccountData} {hist : HistMap} {t : ℕ}
    (h : ∀ d ∈ ds, (hist.lookup d.address).isSome) :
    ∃ h', recordAll hist t ds = .ok h' ∧
      ∀ c, h'.lookup c = (hist.lookup c).map
        (fun old => old ++ (ds.filter (fun d => d.address == c)).map
          (fun d => ((t, d.balance) : Sample))) := by
  induction ds generalizing hist with
  | nil =>
    refine ⟨hist, rfl, fun c => ?_⟩
    cases hist.lookup c <;> simp
  | cons d rest ih =>
    have hd : (hist.lookup d.address).isSome := h d (List.mem_cons_self d rest)
    obtain ⟨old, hold⟩ := Option.isSome_iff_exists.mp hd
    obtain ⟨h1, he1, hl1, hfr1⟩ := appendSample_lookup_some t d.balance hold
    have hrest : ∀ d' ∈ rest, (h1.lookup d'.address).isSome := by
      intro d' hd'
      by_cases hda : d'.address = d.address
      · rw [hda, hl1]; rfl
      · rw [hfr1 _ hda]
        exact h d' (List.mem_cons_of_mem d hd')
    obtain ⟨h2, he2, hl2⟩ := ih hrest
    refine ⟨h2, ?_, fun c => ?_⟩
    · simp [recordAll, he1, he2]
    · rw [hl2 c]
      by_cases hca : c = d.address
      · subst hca
        rw [hl1, hold]
        simp [List.filter_cons, List.append_assoc]
      · rw [hfr1 c hca]
        have hfalse : (d.address == c) = false :=
          beq_eq_false_iff_ne.mpr (fun he => hca he.symm)
        simp [List.filter_cons, hfalse]

theorem mem_update_accounts_data {f : String → HttpResult} {accounts : List String}
    {d : AccountData} (h : d ∈ update_accounts_data f accounts) :
    d.address ∈ accounts ∧ fetch_account_data d.address (f d.address) = some d := by
  obtain ⟨a, ha, hfa⟩ := List.mem_filterMap.mp h
  have hda := fetch_address_eq hfa
  subst hda
  exact ⟨ha, hfa⟩

theorem filter_update_not_mem {f : String → HttpResult}
    {accounts : List String} {a : String} (h : a ∉ accounts) :
    (update_accounts_data f accounts).filter (fun d => d.address == a) = [] := by
  rw [List.filter_eq_nil_iff]
  intro d hd
  have hmem := (mem_update_accounts_data hd).1
  simp only [beq_iff_eq]
  intro he
  exact h (he ▸ hmem)

theorem filter_update_mem {f : String → HttpResult}
    {accounts : List String} (hnd : accounts.Nodup) {a : String} (h : a ∈ accounts) :
    (update_accounts_data f accounts).filter (fun d => d.address == a) =
      (fetch_account_data a (f a)).toList := by
  induction accounts with
  | nil => cases h
  | cons a0 rest ih =>
    rw [List.nodup_cons] at hnd
    simp only [update_accounts_data, List.filterMap_cons] at *
    rcases List.mem_cons.mp h with rfl | hmem
    · cases hf : fetch_account_data a (f a) with
      | none =>
        simp only [hf]
        simpa only [update_accounts_data] using filter_update_not_mem (f := f) hnd.1
      | some d =>
        have hda : d.address = a := fetch_address_eq hf
        simp only [hf, List.filter_cons, hda, beq_self_eq_true, if_true]
        have := filter_update_not_mem (f := f) (a := a) hnd.1
        simp only [update_accounts_data] at this
        rw [this]
        rfl
    · have hne : a ≠ a0 := fun he => hnd.1 (he ▸ hmem)
      cases hf : fetch_account_data a0 (f a0) with
      | none =>
        simpa only [hf] using ih hnd.2 hmem
      | some d =>
        have hda : d.address = a0 := fetch_address_eq hf
        have hfalse : (d.address == a) = false :=
          beq_eq_false_iff_ne.mpr (fun he => hne (hda ▸ he).symm)
        simp only [hf, List.filter_cons, hfalse, if_false]
        exact ih hnd.2 hmem

theorem refresh_cycle_lookup {f : String → HttpResult} {t : ℕ} {s : AppState}
    (hpres : ∀ a ∈ s.accounts, (s.balance_history.lookup a).isSome) :
    ∃ h', refresh_cycle f t s = .ok (⟨s.accounts, h'⟩, 0) ∧
      ∀ c, h'.lookup c = (s.balance_history.lookup c).map
        (fun old => old ++ ((update_accounts_data f s.accounts).filter
          (fun d => d.address == c)).map (fun d => ((t, d.balance) : Sample))) := by
  have hds : ∀ d ∈ update_accounts_data f s.accounts,
      (s.balance_history.lookup d.address).isSome :=
    fun d hd => hpres _ (mem_update_accounts_data hd).1
  by_cases hemp : (update_accounts_data f s.accounts).isEmpty
  · have hnil : update_accounts_data f s.accounts = [] := by
      rwa [List.isEmpty_iff] at hemp
    refine ⟨s.balance_history, ?_, fun c => ?_⟩
    · simp [refresh_cycle, hemp]
    · rw [hnil]
      cases s.balance_history.lookup c <;> simp
  · obtain ⟨h', he, hl⟩ := recordAll_lookup hds
    refine ⟨h', ?_, hl⟩
    simp [refresh_cycle, hemp, he]

theorem listRemoveFirst_not_mem {l : List String} {x : String} (h : x ∉ l) :
    listRemoveFirst l x = .error "ValueError" := by
  induction l with
  | nil => rfl
  | cons a rest ih =>
    rw [List.mem_cons, not_or] at h
    have hne : ¬(a = x) := fun he => h.1 he.symm
    simp [listRemoveFirst, if_neg hne, ih h.2, Except.map]

theorem decodeStrings_map_str (l : List String) :
    decodeStrings (l.map JsonVal.str) = some l := by
  induction l with
  | nil => rfl
  | cons s rest ih => simp [decodeStrings, ih]

theorem pairwise_le_map_const {α : Type} (t : ℕ) (L : List α) :
    List.Pairwise (· ≤ ·) (L.map (fun _ => t)) := by
  induction L with
  | nil => exact List.Pairwise.nil
  | cons x rest ih =>
    refine List.Pairwise.cons (fun y hy => ?_) ih
    obtain ⟨z, _, rfl⟩ := List.mem_map.mp hy
    exact le_refl t

/-!
Claim theorems.
-/

/-- Claim C1, counterexample: a whitespace-only (non-empty) address is truthy in Python, so the add handler appends it instead of rejecting it, contradicting the claim that empty/whitespace addresses fail and leave the tracked set unchanged. -/
theorem add_whitespace_accepted :
    add_account " " ⟨[], []⟩ = (⟨[" "], [(" ", [])]⟩, AddResult.added) := by decide

/-- Claim C1, amended: adding the empty address is rejected and leaves the state unchanged; adding an address already present returns the duplicate warning and leaves the state unchanged; and for every non-empty address not yet present, the first add appends it (exactly one occurrence) and the second add is rejected as a duplicate with the state unchanged. Whitespace-only addresses count as valid input. -/
theorem add_account_amended :
    (∀ s : AppState, (add_account "" s).1 = s ∧ (add_account "" s).2 ≠ .added) ∧
    (∀ s : AppState, ∀ a, a ∈ s.accounts → add_account a s = (s, .duplicateWarning)) ∧
    (∀ s : AppState, ∀ a, a ≠ "" → a ∉ s.accounts →
      (add_account a s).2 = .added ∧
      (add_account a s).1.accounts = s.accounts ++ [a] ∧
      (add_account a s).1.accounts.count a = 1 ∧
      add_account a (add_account a s).1 = ((add_account a s).1, .duplicateWarning)) := by
  refine ⟨fun s => ?_, fun s a ha => ?_, fun s a h1 h2 => ?_⟩
  · by_cases hm : "" ∈ s.accounts <;> simp [add_account, hm]
  · have hcond : ¬(a ≠ "" ∧ a ∉ s.accounts) := fun hc => hc.2 ha
    simp [add_account, if_neg hcond, ha]
  · have hcond : a ≠ "" ∧ a ∉ s.accounts := ⟨h1, h2⟩
    have hstep : add_account a s =
        (⟨s.accounts ++ [a], dictInsert s.balance_history a []⟩, .added) := by
      simp [add_account, if_pos hcond]
    refine ⟨by rw [hstep], by rw [hstep], ?_, ?_⟩
    · rw [hstep]
      simp [List.count_append, List.count_eq_zero.mpr h2]
    · rw [hstep]
      have hmem : a ∈ s.accounts ++ [a] := List.mem_append_right _ (List.mem_singleton.mpr rfl)
      have hcond2 : ¬(a ≠ "" ∧ a ∉ (s.accounts ++ [a])) := fun hc => hc.2 hmem
      simp [add_account, if_neg hcond2, hmem]

/-- Witness for claim C1 at the concrete address addr1 and the empty initial state. -/
theorem add_account_amended_witness :
    (add_account "addr1" ⟨[], []⟩).2 = .added ∧
    add_account "addr1" (add_account "addr1" ⟨[], []⟩).1 =
      ((add_account "addr1" ⟨[], []⟩).1, .duplicateWarning) := by
  have h := add_account_amended.2.2 ⟨[], []⟩ "addr1" (by decide) (by decide)
  exact ⟨h.1, h.2.2.2⟩

/-- Claim C3, counterexample: a transport error, an HTTP 404, a body without a data field and a data object without a balance field all return the very same value none, so the three error conditions do not produce distinct reported failure values and no failure carries an address or a reason. -/
theorem fetch_failures_indistinct :
    fetch_account_data "addr1" HttpResult.netError = none ∧
    fetch_account_data "addr1" (HttpResult.resp 404 ⟨some (some 1)⟩) = none ∧
    fetch_account_data "addr1" (HttpResult.resp 200 ⟨none⟩) = none ∧
    fetch_account_data "addr1" (HttpResult.resp 200 ⟨some none⟩) = none :=
  ⟨rfl, rfl, rfl, rfl⟩

/-- Claim C3, amended: fetch never raises on the enumerated failures, but every failure returns the single indistinct sentinel none (the Python None): transport error, status in the 400-599 range raised by raise_for_status, missing data field, and missing balance field all give none, while a response whose status is outside 400-599 (including 600 and above, which raise_for_status passes through) with both fields gives the balance record for the queried address. -/
theorem fetch_failure_taxonomy :
    (∀ addr, fetch_account_data addr .netError = none) ∧
    (∀ addr st b, 400 ≤ st → st < 600 →
      fetch_account_data addr (.resp st b) = none) ∧
    (∀ addr st, ¬(400 ≤ st ∧ st < 600) →
      fetch_account_data addr (.resp st ⟨none⟩) = none) ∧
    (∀ addr st, ¬(400 ≤ st ∧ st < 600) →
      fetch_account_data addr (.resp st ⟨some none⟩) = none) ∧
    (∀ addr st sub, ¬(400 ≤ st ∧ st < 600) →
      fetch_account_data addr (.resp st ⟨some (some sub)⟩) =
        some ⟨addr, (sub : ℚ) / 100000000⟩) := by
  refine ⟨fun addr => rfl, fun addr st b h1 h2 => ?_, fun addr st h => ?_,
    fun addr st h => ?_, fun addr st sub h => ?_⟩
  · simp [fetch_account_data, if_pos (And.intro h1 h2)]
  · simp [fetch_account_data, if_neg h]
  · simp [fetch_account_data, if_neg h]
  · simp [fetch_account_data, if_neg h]

/-- Witness for claim C3 at status 500 (raised failure), status 201 (success), and status 600 (passes raise_for_status, success). -/
theorem fetch_failure_taxonomy_witness :
    fetch_account_data "addr2" (.resp 500 ⟨some (some 3)⟩) = none ∧
    fetch_account_data "addr2" (.resp 201 ⟨some (some 3)⟩) =
      some ⟨"addr2", (3 : ℚ) / 100000000⟩ ∧
    fetch_account_data "addr2" (.resp 600 ⟨some (some 3)⟩) =
      some ⟨"addr2", (3 : ℚ) / 100000000⟩ :=
  ⟨fetch_failure_taxonomy.2.1 "addr2" 500 _ (by norm_num) (by norm_num),
   fetch_failure_taxonomy.2.2.2.2 "addr2" 201 3 (by norm_num),
   fetch_failure_taxonomy.2.2.2.2 "addr2" 600 3 (by norm_num)⟩

/-- Claim C4: every successful fetch returns exactly the integer subunit count of the response divided by 100000000, and subunit balance 250000000 renders as 2.50000000 under the eight-decimal display format. -/
theorem balance_conversion :
    (∀ addr r d, fetch_account_data addr r = some d →
      ∃ st body sub, r = .resp st body ∧ ¬(400 ≤ st ∧ st < 600) ∧
        body.dataField = some (some sub) ∧ d = ⟨addr, (sub : ℚ) / 100000000⟩) ∧
    (∀ addr, fetch_account_data addr (.resp 200 ⟨some (some 250000000)⟩) =
      some ⟨addr, (250000000 : ℚ) / 100000000⟩) ∧
    formatFixed8 ((250000000 : ℚ) / 100000000) = "2.50000000" := by
  refine ⟨fun addr r d h => ?_, fun addr => rfl, ?_⟩
  · match r with
    | .netError => cases h
    | .resp st body =>
      match hb : body.dataField with
      | none => simp [fetch_account_data, hb] at h
      | some none => simp [fetch_account_data, hb] at h
      | some (some sub) =>
        by_cases hc : 400 ≤ st ∧ st < 600
        · simp [fetch_account_data, hb, if_pos hc] at h
        · simp only [fetch_account_data, hb, if_neg hc] at h
          exact ⟨st, body, sub, rfl, hc, hb, (Option.some.inj h).symm⟩
  · have h : ⌊((250000000 : ℚ) / 100000000) * 100000000⌋ = 250000000 := by norm_num
    unfold formatFixed8
    rw [h]
    decide

/-- Witness for claim C4 at a concrete 200 response carrying 250000000 subunits. -/
theorem balance_conversion_witness :
    ∃ st body sub,
      (HttpResult.resp 200 ⟨some (some 250000000)⟩ : HttpResult) = .resp st body ∧
      ¬(400 ≤ st ∧ st < 600) ∧ body.dataField = some (some sub) ∧
      (⟨"addr1", (250000000 : ℚ) / 100000000⟩ : AccountData) =
        ⟨"addr1", (sub : ℚ) / 100000000⟩ :=
  balance_conversion.1 "addr1" _ _ rfl

/-- Claim C5, counterexample: removing an address that is not tracked raises ValueError (Python list.remove), not a silent no-op. -/
theorem remove_absent_raises :
    remove_account "addr1" ⟨[], []⟩ = .error "ValueError" := rfl

/-- Claim C5, amended: for every address not in the tracked set, the delete handler raises ValueError from list.remove rather than being a no-op; in the running app this never happens because delete buttons exist only for tracked addresses. -/
theorem remove_account_absent (a : String) (s : AppState) (h : a ∉ s.accounts) :
    remove_account a s = .error "ValueError" := by
  simp [remove_account, listRemoveFirst_not_mem h]

/-- Witness for claim C5 at a concrete absent address. -/
theorem remove_account_absent_witness :
    remove_account "addr2" ⟨["addr1"], [("addr1", [])]⟩ = .error "ValueError" :=
  remove_account_absent "addr2" ⟨["addr1"], [("addr1", [])]⟩ (by decide)

/-- Claim C6, counterexample: when the persisted file exists but holds malformed JSON, load raises JSONDecodeError to the caller, because only FileNotFoundError is caught. -/
theorem load_malformed_raises :
    load_addresses (some none) = .error "JSONDecodeError" := rfl

/-- Claim C6, amended: load returns the empty list when no persisted file exists (absence is not an error, and the empty array decodes to the empty tracked set), returns whatever JSON value a well-formed file holds without validation, and fails the caller with JSONDecodeError when the file exists but is malformed. -/
theorem load_addresses_amended :
    load_addresses none = .ok (JsonVal.arr []) ∧
    decodeStringArray (JsonVal.arr []) = some [] ∧
    (∀ v, load_addresses (some (some v)) = .ok v) ∧
    load_addresses (some none) = .error "JSONDecodeError" :=
  ⟨rfl, rfl, fun _ => rfl, rfl⟩

/-- Witness for claim C6: a well-formed file holding the JSON number 3 is returned as-is, unvalidated. -/
theorem load_addresses_amended_witness :
    load_addresses (some (some (JsonVal.num 3))) = .ok (JsonVal.num 3) :=
  load_addresses_amended.2.2.1 (JsonVal.num 3)

/-- Claim C7, counterexample: recording a sample for an address with no existing history sequence raises KeyError (Python dict indexing) instead of creating the sequence. -/
theorem record_missing_key_raises :
    appendSample ([] : HistMap) "addr1" 0 1 = .error "KeyError" := rfl

/-- Claim C7, amended: recording a sample appends it to the existing sequence for its address and leaves every other address's sequence unchanged, but it fails with KeyError when the history mapping has no sequence for that address; the program avoids this only because add and startup create an empty sequence for every tracked address. -/
theorem record_appends_existing :
    (∀ hist : HistMap, ∀ addr : String, ∀ t : ℕ, ∀ b : ℚ, ∀ old : Samples,
      hist.lookup addr = some old →
      ∃ h', appendSample hist addr t b = .ok h' ∧
        h'.lookup addr = some (old ++ [(t, b)]) ∧
        ∀ c, c ≠ addr → h'.lookup c = hist.lookup c) ∧
    (∀ hist : HistMap, ∀ addr : String, ∀ t : ℕ, ∀ b : ℚ,
      hist.lookup addr = none → appendSample hist addr t b = .error "KeyError") :=
  ⟨fun _ _ t b _ h => appendSample_lookup_some t b h,
   fun _ _ t b h => appendSample_lookup_none t b h⟩

/-- Witness for claim C7 on a one-entry history map. -/
theorem record_appends_existing_witness :
    ∃ h', appendSample [("addr1", [((1 : ℕ), (1 : ℚ))])] "addr1" 2 3 = .ok h' ∧
      h'.lookup "addr1" = some ([((1 : ℕ), (1 : ℚ))] ++ [(2, 3)]) ∧
      ∀ c, c ≠ "addr1" →
        h'.lookup c = ([("addr1", [((1 : ℕ), (1 : ℚ))])] : HistMap).lookup c :=
  record_appends_existing.1 _ "addr1" 2 3 _ (by decide)

/-- Claim C8: saving a non-empty tracked set and then loading reproduces the same addresses in the same order (the persisted JSON array of strings decodes back to exactly the saved list). -/
theorem save_load_roundtrip (l : List String) (_h : l ≠ []) :
    load_addresses (save_addresses l) = .ok (JsonVal.arr (l.map .str)) ∧
    decodeStringArray (JsonVal.arr (l.map .str)) = some l :=
  ⟨rfl, decodeStrings_map_str l⟩

/-- Witness for claim C8 at the concrete set containing addr1 and addr2 in that order. -/
theorem save_load_roundtrip_witness :
    load_addresses (save_addresses ["addr1", "addr2"]) =
      .ok (JsonVal.arr (["addr1", "addr2"].map JsonVal.str)) ∧
    decodeStringArray (JsonVal.arr (["addr1", "addr2"].map JsonVal.str)) =
      some ["addr1", "addr2"] :=
  save_load_roundtrip ["addr1", "addr2"] (by decide)

/-- Claim C10: when every fetch of a cycle fails, the cycle leaves the whole state (hence every address's history) unchanged and still ends normally with the countdown reset to zero for the next cycle. -/
theorem refresh_cycle_all_fail (f : String → HttpResult) (t : ℕ) (s : AppState)
    (h : ∀ a ∈ s.accounts, fetch_account_data a (f a) = none) :
    refresh_cycle f t s = .ok (s, 0) := by
  have hnil : update_accounts_data f s.accounts = [] := by
    rw [update_accounts_data, List.filterMap_eq_nil_iff]
    exact h
  simp [refresh_cycle, hnil]

/-- Witness for claim C10 with a network error on the single tracked address. -/
theorem refresh_cycle_all_fail_witness :
    refresh_cycle (fun _ => .netError) 7 ⟨["addr1"], [("addr1", [])]⟩ =
      .ok (⟨["addr1"], [("addr1", [])]⟩, 0) :=
  refresh_cycle_all_fail _ 7 _ (fun _ _ => rfl)

/-- Claim C2: in a refresh cycle over a duplicate-free tracked set whose addresses all have history entries, the cycle completes without abort, each address whose fetch succeeds gets exactly its own sample appended, each address whose fetch fails keeps its history unchanged, and addresses outside the tracked set are untouched, so a failure for one address never alters another address's history. -/
theorem refresh_cycle_per_address (f : String → HttpResult) (t : ℕ) (s : AppState)
    (hnd : s.accounts.Nodup)
    (hpres : ∀ a ∈ s.accounts, (s.balance_history.lookup a).isSome) :
    ∃ h', refresh_cycle f t s = .ok (⟨s.accounts, h'⟩, 0) ∧
      (∀ a ∈ s.accounts, ∀ d, fetch_account_data a (f a) = some d →
        h'.lookup a = (s.balance_history.lookup a).map
          (fun old => old ++ [(t, d.balance)])) ∧
      (∀ a ∈ s.accounts, fetch_account_data a (f a) = none →
        h'.lookup a = s.balance_history.lookup a) ∧
      (∀ b, b ∉ s.accounts → h'.lookup b = s.balance_history.lookup b) := by
  obtain ⟨h', he, hl⟩ := refresh_cycle_lookup hpres
  refine ⟨h', he, ?_, ?_, ?_⟩
  · intro a ha d hd
    rw [hl a, filter_update_mem hnd ha, hd]
    rfl
  · intro a ha hd
    rw [hl a, filter_update_mem hnd ha, hd]
    cases s.balance_history.lookup a <;> simp
  · intro b hb
    rw [hl b, filter_update_not_mem hb]
    cases s.balance_history.lookup b <;> simp

/-- Witness for claim C2 on a single tracked address with a successful fetch. -/
theorem refresh_cycle_per_address_witness :
    ∃ h', refresh_cycle (fun _ => .resp 200 ⟨some (some 250000000)⟩) 3
        ⟨["addr1"], [("addr1", [])]⟩ = .ok (⟨["addr1"], h'⟩, 0) ∧
      (∀ a ∈ (⟨["addr1"], [("addr1", [])]⟩ : AppState).accounts, ∀ d : AccountData,
        fetch_account_data a ((fun _ => .resp 200 ⟨some (some 250000000)⟩) a) = some d →
        h'.lookup a = ((⟨["addr1"], [("addr1", [])]⟩ : AppState).balance_history.lookup a).map
          (fun old => old ++ [(3, d.balance)])) ∧
      (∀ a ∈ (⟨["addr1"], [("addr1", [])]⟩ : AppState).accounts,
        fetch_account_data a ((fun _ => .resp 200 ⟨some (some 250000000)⟩) a) = none →
        h'.lookup a = (⟨["addr1"], [("addr1", [])]⟩ : AppState).balance_history.lookup a) ∧
      (∀ b, b ∉ (⟨["addr1"], [("addr1", [])]⟩ : AppState).accounts →
        h'.lookup b = (⟨["addr1"], [("addr1", [])]⟩ : AppState).balance_history.lookup b) :=
  refresh_cycle_per_address (fun _ => .resp 200 ⟨some (some 250000000)⟩) 3
    ⟨["addr1"], [("addr1", [])]⟩ (by decide) (by decide)

/-- Claim C9: a refresh cycle appends every new sample with the one timestamp taken at the start of recording, and, provided the clock reading is at least every timestamp already recorded (the clock moves forward between cycles), per-address timestamps remain non-decreasing and bounded by the cycle timestamp, which is the inductive invariant giving monotonicity across cycles. -/
theorem refresh_cycle_timestamps (f : String → HttpResult) (t : ℕ) (s : AppState)
    (hpres : ∀ a ∈ s.accounts, (s.balance_history.lookup a).isSome)
    (hbound : ∀ c old, s.balance_history.lookup c = some old → ∀ q ∈ old, q.1 ≤ t)
    (hmono : ∀ c old, s.balance_history.lookup c = some old →
      List.Pairwise (· ≤ ·) (old.map Prod.fst)) :
    ∃ h', refresh_cycle f t s = .ok (⟨s.accounts, h'⟩, 0) ∧
      (∀ c old, s.balance_history.lookup c = some old →
        ∃ ns, h'.lookup c = some (old ++ ns) ∧ ∀ q ∈ ns, q.1 = t) ∧
      (∀ c l, h'.lookup c = some l →
        List.Pairwise (· ≤ ·) (l.map Prod.fst) ∧ ∀ q ∈ l, q.1 ≤ t) := by
  obtain ⟨h', he, hl⟩ := refresh_cycle_lookup hpres
  refine ⟨h', he, ?_, ?_⟩
  · intro c old hold
    refine ⟨((update_accounts_data f s.accounts).filter
        (fun d => d.address == c)).map (fun d => ((t, d.balance) : Sample)), ?_, ?_⟩
    · rw [hl c, hold]
      rfl
    · intro q hq
      obtain ⟨d, _, rfl⟩ := List.mem_map.mp hq
      rfl
  · intro c l hlk
    rw [hl c] at hlk
    cases hold : s.balance_history.lookup c with
    | none => rw [hold] at hlk; cases hlk
    | some old =>
      rw [hold] at hlk
      obtain rfl := (Option.some.inj hlk).symm
      constructor
      · rw [List.map_append]
        refine List.pairwise_append.mpr ⟨hmono c old hold, ?_, ?_⟩
        · rw [List.map_map]
          exact pairwise_le_map_const t _
        · intro x hx y hy
          obtain ⟨qx, hqx, rfl⟩ := List.mem_map.mp hx
          rw [List.map_map] at hy
          obtain ⟨d, _, rfl⟩ := List.mem_map.mp hy
          exact hbound c old hold qx hqx
      · intro q hq
        rcases List.mem_append.mp hq with h1 | h2
        · exact hbound c old hold q h1
        · obtain ⟨d, _, rfl⟩ := List.mem_map.mp h2
          exact le_refl t

/-- Witness for claim C9 on a one-address state with an earlier sample at time 4 and cycle time 9. -/
theorem refresh_cycle_timestamps_witness :
    ∃ h', refresh_cycle (fun _ => .resp 200 ⟨some (some 100000000)⟩) 9
        ⟨["addr1"], [("addr1", [((4 : ℕ), (1 : ℚ))])]⟩ = .ok (⟨["addr1"], h'⟩, 0) ∧
      (∀ c old,
        (⟨["addr1"], [("addr1", [((4 : ℕ), (1 : ℚ))])]⟩ : AppState).balance_history.lookup c =
          some old →
        ∃ ns, h'.lookup c = some (old ++ ns) ∧ ∀ q ∈ ns, q.1 = 9) ∧
      (∀ c l, h'.lookup c = some l →
        List.Pairwise (· ≤ ·) (l.map Prod.fst) ∧ ∀ q ∈ l, q.1 ≤ 9) :=
  refresh_cycle_timestamps (fun _ => .resp 200 ⟨some (some 100000000)⟩) 9
    ⟨["addr1"], [("addr1", [((4 : ℕ), (1 : ℚ))])]⟩ (by decide)
    (by
      intro c old h
      by_cases hc : c = "addr1"
      · subst hc
        rw [lookup_cons_self] at h
        obtain rfl := (Option.some.inj h).symm
        intro q hq
        obtain rfl := List.mem_singleton.mp hq
        norm_num
      · rw [lookup_cons_ne hc] at h
        simp [List.lookup] at h)
    (by
      intro c old h
      by_cases hc : c = "addr1"
      · subst hc
        rw [lookup_cons_self] at h
        obtain rfl := (Option.some.inj h).symm
        simp
      · rw [lookup_cons_ne hc] at h
        simp [List.lookup] at h)

end FractalDashboard
